import Mathlib

/-!
# CodeThorn `Analyzer` and MFB `Driver<Sage>`: a shallow embedding

Sources embedded here:

* `projects/CodeThorn/src/Analyzer.h` (classes `AstNodeInfo` and `Analyzer`);
* `src/backend/MFB/lib/sage/function-declaration.cpp`
  (`Driver<Sage>::resolveValidParent<SgFunctionSymbol>`).

Conventions.

* Raw pointers (`SgNode*`, `SgLabelStatement*`, `CFAnalyzer*`, ...) are addresses, `Nat`,
  with `0` for `NULL`.
* `int` values are `Int`; a conversion into `int` is written `toInt32`.
* `std::set<int>` is a strictly ascending `List Int` (its iteration order).
* `std::map<K,V>` is an association list with one entry per key; a set or map of
  pointers is a list whose order carries no meaning.
* A call that stops on a failed `assert` returns `none`; where a null dereference can
  stop the call as well, the two are told apart by an `Abort` value.
-/

namespace CodeThorn

/-! ## Standard containers -/

/-- Conversion of a non-negative size to the 32-bit `int` (two's complement wrap-around). -/
def toInt32 (n : Int) : Int := (n + 2147483648) % 4294967296 - 2147483648

/-- The call `std::set<int>::insert(i)` on the ascending element list. -/
def setInsert (i : Int) : List Int → List Int
  | [] => [i]
  | x :: xs =>
    if i < x then i :: x :: xs
    else if i = x then x :: xs
    else x :: setInsert i xs

/-- The call `std::set<int>::size()`. -/
def setSize (s : List Int) : Nat := s.length

/-- The call `std::map<K,V>::find(k)`, giving the mapped value if the key is present. -/
def mapFind {K V : Type} [DecidableEq K] (k : K) : List (K × V) → Option V
  | [] => none
  | (k', v) :: m => if k = k' then some v else mapFind k m

/-- The call `std::map<K,V>::insert(pair(k,v))`: an existing entry for `k` is kept. -/
def mapInsert {K V : Type} [DecidableEq K] (k : K) (v : V) (m : List (K × V)) : List (K × V) :=
  match mapFind k m with
  | some _ => m
  | none => m ++ [(k, v)]

/-- The call `std::map<K,V>::operator[](k)`: a missing key is first bound to the
default-constructed value `dflt`; the result is the mapped value and the map afterwards. -/
def mapIndex {K V : Type} [DecidableEq K] (dflt : V) (k : K) (m : List (K × V)) :
    V × List (K × V) :=
  match mapFind k m with
  | some v => (v, m)
  | none => (dflt, m ++ [(k, dflt)])

/-! ## Data model of the analyzer -/

/-- A program point; `typedef size_t Label`. -/
abbrev Label := Nat

/-- A variable identity. -/
abbrev VariableId := Nat

/-- Address of an AST node (`SgNode*`). -/
abbrev SgNodePtr := Nat

/-- Address of a label statement (`SgLabelStatement*`). -/
abbrev SgLabelStatementPtr := Nat

/-- Address of the control-flow analyzer (`CFAnalyzer*`). -/
abbrev CFAnalyzerPtr := Nat

/-- Address of a labeler (`Labeler*`). -/
abbrev LabelerPtr := Nat

/-- How a call stops without returning: on a failed `assert`, or on the dereference of a
null pointer. -/
inductive Abort where
  | assertion : Abort
  | nullPointer : Abort
  deriving DecidableEq, Repr

/-- Modelled from the spec: the lattice value of §3 (class
`AType::ConstIntLattice`, declared outside `Analyzer.h`): bottom, a constant, or top. -/
inductive Value where
  | bot : Value
  | const : Int → Value
  | top : Value
  deriving DecidableEq, Repr

/-- Modelled from the spec: the program state of §3 and §4.3, a key-sorted sequence of
variable/value pairs (class `PState` of `StateRepresentations.h`). -/
abbrev PState := List (VariableId × Value)

/-- Modelled from the spec: `get(id)` of §4.3. -/
def PState.get (ps : PState) (id : VariableId) : Option Value := mapFind id ps

/-- Modelled from the spec: `withSet(id, value)` of §4.3 on the key-sorted sequence; it
returns a new program state in which `id` is bound to `value`. -/
def PState.withSet (id : VariableId) (value : Value) : PState → PState
  | [] => [(id, value)]
  | (k, v) :: ps =>
    if id < k then (id, value) :: (k, v) :: ps
    else if id = k then (k, value) :: ps
    else (k, v) :: PState.withSet id value ps

/-- Modelled from the spec: an atomic constraint of §3. -/
inductive Constraint where
  | eqConst : VariableId → Int → Constraint
  | neqConst : VariableId → Int → Constraint
  | eqVar : VariableId → VariableId → Constraint
  deriving DecidableEq, Repr

/-- Modelled from the spec: the constraint set of §3 in its canonical (sorted) form. -/
abbrev ConstraintSet := List Constraint

/-- Modelled from the spec: the input/output record of §3. The input case carries the
lattice value that was read, as §4.7 writes it (`input(k)`, `input(⊤)`). -/
inductive InputOutput where
  | none : InputOutput
  | input : Value → InputOutput
  | output : Value → InputOutput
  | stdinRead : Int → InputOutput
  | stdoutWrite : Int → InputOutput
  | failedAssert : InputOutput
  deriving DecidableEq, Repr

/-- A stable borrow of an interned `PState`: its position in the owning set. -/
abbrev PStatePtr := Nat

/-- A stable borrow of an interned `ConstraintSet`. -/
abbrev ConstraintSetPtr := Nat

/-- A stable borrow of an interned `EState`. -/
abbrev EStatePtr := Nat

/-- Modelled from the spec: the extended state of §3, `(Label, PState*, ConstraintSet*,
InputOutput)`, compared structurally over its four components. -/
structure EState where
  label : Label
  pstate : PStatePtr
  cset : ConstraintSetPtr
  io : InputOutput
  deriving DecidableEq, Repr

/-- Modelled from the spec: the edge kinds of §3. -/
inductive EdgeKind where
  | intraprocedural : EdgeKind
  | call : EdgeKind
  | ret : EdgeKind
  | localEdge : EdgeKind
  | externalCall : EdgeKind
  deriving DecidableEq, Repr

/-- Modelled from the spec: the edge of §3. -/
structure Edge where
  source : Label
  target : Label
  kind : EdgeKind
  deriving DecidableEq, Repr

/-- Modelled from the spec: the transition of §3. -/
structure Transition where
  source : EStatePtr
  edge : Edge
  target : EStatePtr
  deriving DecidableEq, Repr

/-! ## `AstNodeInfo` -/

/-- Class `AstNodeInfo`. `LabelSet` (declared in `Labeler.h`) is the ascending list of
its labels. -/
structure AstNodeInfo where
  label : Label
  initialLabel : Label
  finalLabelsSet : List Label
  deriving DecidableEq, Repr

namespace AstNodeInfo

/-- Constructor `AstNodeInfo():label(0),initialLabel(0){}`; the label set is
default-constructed. -/
def new : AstNodeInfo := { label := 0, initialLabel := 0, finalLabelsSet := [] }

/-- Method `setLabel`. -/
def setLabel (n : AstNodeInfo) (l : Label) : AstNodeInfo := { n with label := l }

/-- Method `setInitialLabel`. -/
def setInitialLabel (n : AstNodeInfo) (l : Label) : AstNodeInfo := { n with initialLabel := l }

/-- Method `setFinalLabels`. -/
def setFinalLabels (n : AstNodeInfo) (lset : List Label) : AstNodeInfo :=
  { n with finalLabelsSet := lset }

/-- Method `toString`. `labelSetToString` stands for `LabelSet::toString`, declared in
`Labeler.h`. A `Label` is streamed as a decimal number. -/
def toString (labelSetToString : List Label → String) (n : AstNodeInfo) : String :=
  "\\n lab:" ++ Nat.repr n.label ++ " "
    ++ "init:" ++ Nat.repr n.initialLabel ++ " "
    ++ "final:" ++ labelSetToString n.finalLabelsSet

end AstNodeInfo

/-! ## `Analyzer` -/

/-- Data members of class `Analyzer`. `exprAnalyzer` and `variableIdMapping` belong to
classes declared in other headers and are carried abstractly. The interning sets list
their states in order of entry, so that a borrow is a position. -/
structure Analyzer (ExprAnalyzer VariableIdMapping : Type) where
  flow : List Edge
  startFunRoot : SgNodePtr
  cfanalyzer : CFAnalyzerPtr
  _assertNodes : List (SgLabelStatementPtr × SgNodePtr)
  _csv_assert_live_file : String
  globalVarName2VarIdMapping : List (String × VariableId)
  _inputVarValues : List Int
  exprAnalyzer : ExprAnalyzer
  variableIdMapping : VariableIdMapping
  estateWorkList : List EStatePtr
  estateSet : List EState
  pstateSet : List PState
  constraintSetMaintainer : List ConstraintSet
  transitionGraph : List Transition
  _displayDiff : Int
  _numberOfThreadsToUse : Int
  _ltlVerifier : Int
  _semanticFoldThreshold : Int

namespace Analyzer

variable {EA VM : Type}

/-- Method `setCFAnalyzer`. -/
def setCFAnalyzer (a : Analyzer EA VM) (cf : CFAnalyzerPtr) : Analyzer EA VM :=
  { a with cfanalyzer := cf }

/-- Method `getCFAnalyzer`. -/
def getCFAnalyzer (a : Analyzer EA VM) : CFAnalyzerPtr := a.cfanalyzer

/-- Method `setDisplayDiff`. -/
def setDisplayDiff (a : Analyzer EA VM) (diff : Int) : Analyzer EA VM :=
  { a with _displayDiff := diff }

/-- Method `setSemanticFoldThreshold`. -/
def setSemanticFoldThreshold (a : Analyzer EA VM) (t : Int) : Analyzer EA VM :=
  { a with _semanticFoldThreshold := t }

/-- Method `setLTLVerifier`. -/
def setLTLVerifier (a : Analyzer EA VM) (v : Int) : Analyzer EA VM :=
  { a with _ltlVerifier := v }

/-- Method `getLTLVerifier`. -/
def getLTLVerifier (a : Analyzer EA VM) : Int := a._ltlVerifier

/-- Method `setNumberOfThreadsToUse`. -/
def setNumberOfThreadsToUse (a : Analyzer EA VM) (n : Int) : Analyzer EA VM :=
  { a with _numberOfThreadsToUse := n }

/-- Method `insertInputVarValue`. -/
def insertInputVarValue (a : Analyzer EA VM) (i : Int) : Analyzer EA VM :=
  { a with _inputVarValues := setInsert i a._inputVarValues }

/-- Method `numberOfInputVarValues`: the `size_t` size is returned as `int`. -/
def numberOfInputVarValues (a : Analyzer EA VM) : Int :=
  toInt32 (setSize a._inputVarValues)

/-- A sequence of `insertInputVarValue` calls, first element first. -/
def insertInputVarValues (a : Analyzer EA VM) (vals : List Int) : Analyzer EA VM :=
  vals.foldl insertInputVarValue a

/-- Method `globalVarIdByName`: `return globalVarName2VarIdMapping[varName];`.
`dflt` is the default-constructed `VariableId`. -/
def globalVarIdByName (dflt : VariableId) (a : Analyzer EA VM) (varName : String) :
    VariableId × Analyzer EA VM :=
  let r := mapIndex dflt varName a.globalVarName2VarIdMapping
  (r.1, { a with globalVarName2VarIdMapping := r.2 })

/-- Method `getLabeler`: `return cfanalyzer->getLabeler();`. `cfGetLabeler` is
`CFAnalyzer::getLabeler` on the object at the given address; a null `cfanalyzer` cannot
be dereferenced. -/
def getLabeler (cfGetLabeler : CFAnalyzerPtr → LabelerPtr) (a : Analyzer EA VM) :
    Except Abort LabelerPtr :=
  if a.cfanalyzer = 0 then Except.error Abort.nullPointer
  else Except.ok (cfGetLabeler a.cfanalyzer)

/-- The loop of `labelNameOfAssertLabel`, from the local `labelName` on: every iteration
evaluates `getLabeler()->getLabel((*i).second)`, which dereferences `cfanalyzer` and the
labeler it gives. `labelerGetLabel` is `Labeler::getLabel` on the labeler at the given
address and `getLabelName` is `SgNodeHelper::getLabelName`. -/
def scanAssertNodes (cfGetLabeler : CFAnalyzerPtr → LabelerPtr)
    (labelerGetLabel : LabelerPtr → SgNodePtr → Label)
    (getLabelName : SgLabelStatementPtr → String) (a : Analyzer EA VM) (lab : Label) :
    List (SgLabelStatementPtr × SgNodePtr) → String → Except Abort String
  | [], labelName => Except.ok labelName
  | i :: rest, labelName =>
    match getLabeler cfGetLabeler a with
    | Except.error e => Except.error e
    | Except.ok labeler =>
      if labeler = 0 then Except.error Abort.nullPointer
      else
        scanAssertNodes cfGetLabeler labelerGetLabel getLabelName a lab rest
          (if lab = labelerGetLabel labeler i.2 then getLabelName i.1 else labelName)

/-- Method `labelNameOfAssertLabel`. The result is the returned name together with the
analyzer afterwards; the call stops on `assert(labelName.size()>0)`, or earlier on a
null dereference inside the loop. -/
def labelNameOfAssertLabel (cfGetLabeler : CFAnalyzerPtr → LabelerPtr)
    (labelerGetLabel : LabelerPtr → SgNodePtr → Label)
    (getLabelName : SgLabelStatementPtr → String) (a : Analyzer EA VM) (lab : Label) :
    Except Abort (String × Analyzer EA VM) :=
  match scanAssertNodes cfGetLabeler labelerGetLabel getLabelName a lab a._assertNodes "" with
  | Except.error e => Except.error e
  | Except.ok labelName =>
    if labelName.length > 0 then Except.ok (labelName, a) else Except.error Abort.assertion

/-! ### Interning -/

/-- Modelled from the spec: the single operation of an interning set (§4.5), whose
definition is in `Analyzer.cpp`, not among the source files. After the comment on its
declaration: if the state exists in the set, a pointer to the existing state is
returned, otherwise the state is entered into the set and a pointer to it is returned.
The pointer is the position of the state in the set, which never moves. -/
def internNewOrExisting {α : Type} [DecidableEq α] (stateSet : List α) (s : α) :
    Nat × List α :=
  if s ∈ stateSet then (stateSet.indexOf s, stateSet)
  else (stateSet.length, stateSet ++ [s])

/-- Modelled from the spec: `processNewOrExisting(PState&)` on `pstateSet`. -/
def processNewOrExistingPState (a : Analyzer EA VM) (s : PState) : PStatePtr × Analyzer EA VM :=
  let r := internNewOrExisting a.pstateSet s
  (r.1, { a with pstateSet := r.2 })

/-- Modelled from the spec: `createFailedAssertEState` (defined in `Analyzer.cpp`). After
the comment on its declaration and §4.7: the failed-assert code is put into the io
field of the state, which gets the target label; the program state is unchanged. -/
def createFailedAssertEState (estate : EState) (target : Label) : EState :=
  { estate with label := target, io := InputOutput.failedAssert }

/-- Modelled from the spec: `isFailedAssertEState` (defined in `Analyzer.cpp`): the check
of the failed-assert code in the io field. -/
def isFailedAssertEState (estate : EState) : Bool :=
  estate.io == InputOutput.failedAssert

/-! ### Transfer function, input statements -/

/-- Modelled from the spec: one successor of an input statement (§4.7): the target
variable is set to `v` in a new program state, which is interned; the successor has the
label of the edge target and `io = input(v)`. -/
def inputSuccessor (inputVar : VariableId) (edge : Edge) (q : EState) (ps : PState)
    (v : Value) (a : Analyzer EA VM) : EState × Analyzer EA VM :=
  let r := processNewOrExistingPState a (PState.withSet inputVar v ps)
  ({ label := edge.target, pstate := r.1, cset := q.cset, io := InputOutput.input v }, r.2)

/-- Modelled from the spec: the successors for the configured values, in the order of
the given list. -/
def inputSuccessors (inputVar : VariableId) (edge : Edge) (q : EState) (ps : PState) :
    List Int → Analyzer EA VM → List EState × Analyzer EA VM
  | [], a => ([], a)
  | k :: ks, a =>
    let r := inputSuccessor inputVar edge q ps (Value.const k) a
    let rs := inputSuccessors inputVar edge q ps ks r.2
    (r.1 :: rs.1, rs.2)

/-- Modelled from the spec: `transferFunction` (defined in `Analyzer.cpp`) on an edge
whose source is an input statement reading `inputVar` (§4.7): one successor per value of
`_inputVarValues`, taken in the iteration order of the set; a single successor with the
variable at top when the set is empty. `none` stands for a dangling borrow. -/
def transferFunctionInput (a : Analyzer EA VM) (inputVar : VariableId) (edge : Edge)
    (estate : EStatePtr) : Option (List EState × Analyzer EA VM) :=
  match a.estateSet[estate]? with
  | none => none
  | some q =>
    match a.pstateSet[q.pstate]? with
    | none => none
    | some ps =>
      if a._inputVarValues = [] then
        let r := inputSuccessor inputVar edge q ps Value.top a
        some ([r.1], r.2)
      else some (inputSuccessors inputVar edge q ps a._inputVarValues a)

/-! ### A concrete analyzer -/

/-- An analyzer before any configuration call: containers empty, pointers null. The
`int` members get their first values in the constructor (`Analyzer.cpp`); they are
arguments here. -/
def initial (displayDiff numberOfThreadsToUse ltlVerifier semanticFoldThreshold : Int) :
    Analyzer Unit Unit :=
  { flow := []
    startFunRoot := 0
    cfanalyzer := 0
    _assertNodes := []
    _csv_assert_live_file := ""
    globalVarName2VarIdMapping := []
    _inputVarValues := []
    exprAnalyzer := ()
    variableIdMapping := ()
    estateWorkList := []
    estateSet := []
    pstateSet := []
    constraintSetMaintainer := []
    transitionGraph := []
    _displayDiff := displayDiff
    _numberOfThreadsToUse := numberOfThreadsToUse
    _ltlVerifier := ltlVerifier
    _semanticFoldThreshold := semanticFoldThreshold }

/-- The analyzer of `int x; input(x);` standing at the input statement: one interned
program state in which variable 5 is at top, the empty constraint set, and one interned
extended state at label 1. -/
def beforeInput : Analyzer Unit Unit :=
  { initial 10000 1 2 5000 with
    pstateSet := [[(5, Value.top)]]
    constraintSetMaintainer := [[]]
    estateSet := [{ label := 1, pstate := 0, cset := 0, io := InputOutput.none }] }

/-- An analyzer with a `CFAnalyzer` installed at address 7 and three registered labelled
assertions. -/
def withAsserts : Analyzer Unit Unit :=
  { (initial 10000 1 2 5000).setCFAnalyzer 7 with
    _assertNodes := [(10, 100), (11, 101), (12, 100)] }

/-- For the examples: every `CFAnalyzer` has its labeler at address 9. -/
def sampleCfGetLabeler : CFAnalyzerPtr → LabelerPtr := fun _ => 9

/-- For the examples: the labeler gives the node at address `n` the label `n - 99`. -/
def sampleGetLabel : LabelerPtr → SgNodePtr → Label := fun _ n => n - 99

/-- For the examples: the names of the label statements at addresses 10, 11 and 12. -/
def sampleGetLabelName : SgLabelStatementPtr → String :=
  fun l => if l = 10 then "error_1" else if l = 11 then "error_2" else "error_3"

end Analyzer

end CodeThorn

namespace MultiFileBuilder

/-! ## `Driver<Sage>` -/

/-- A non-null `SgSymbol*` held by the driver: the address of a function symbol or of a
namespace symbol. -/
inductive SgSymbolPtr where
  | functionSymbol : Nat → SgSymbolPtr
  | namespaceSymbol : Nat → SgSymbolPtr
  deriving DecidableEq, Repr

/-- The call `std::set<T*>::insert(x)`; the order of the list carries no meaning. -/
def ptrSetInsert {α : Type} [DecidableEq α] (x : α) (s : List α) : List α :=
  if x ∈ s then s else s ++ [x]

/-- The AST queries used by `resolveValidParent<SgFunctionSymbol>`, with `none` for a
`NULL` result. -/
structure SageAst where
  symbol_get_scope : Nat → Nat
  isSgNamespaceDefinitionStatement : Nat → Option Nat
  get_namespaceDeclaration : Nat → Option Nat
  decl_get_name : Nat → String
  decl_get_scope : Nat → Nat
  lookupNamespaceSymbolInParentScopes : String → Nat → Option Nat

/-- Symbol tables of `Driver<Sage>` (declared in `MFB/Sage/driver.hpp`): `p_valid_symbols`
is a `std::set<SgSymbol*>`, `p_parent_map` a `std::map<SgSymbol*, SgSymbol*>` whose
mapped value may be `NULL`, `p_function_symbols` a `std::set<SgFunctionSymbol*>`. The
members that symbol resolution does not touch are carried abstractly in `others`. -/
structure Driver (Others : Type) where
  p_symbol_to_file_id_map : List (SgSymbolPtr × Nat)
  p_valid_symbols : List SgSymbolPtr
  p_parent_map : List (SgSymbolPtr × Option SgSymbolPtr)
  p_function_symbols : List Nat
  others : Others

namespace Driver

variable {O : Type}

/-- Lines 33-35: the three insertions that validate `symbol` with parent `parent`. -/
def recordFunctionSymbol (d : Driver O) (symbol : Nat) (parent : Option SgSymbolPtr) :
    Driver O :=
  { d with
    p_valid_symbols := ptrSetInsert (SgSymbolPtr.functionSymbol symbol) d.p_valid_symbols
    p_parent_map :=
      CodeThorn.mapInsert (SgSymbolPtr.functionSymbol symbol) parent d.p_parent_map
    p_function_symbols := ptrSetInsert symbol d.p_function_symbols }

/-- The specialisation `Driver<Sage>::resolveValidParent<SgFunctionSymbol>`.
`resolveNamespace` is `resolveValidParent<SgNamespaceSymbol>`, defined in another file.
The result is the returned flag with the driver afterwards, or `none` when an `assert`
fails. -/
def resolveValidParentFunction (ast : SageAst)
    (resolveNamespace : Nat → Driver O → Option (Bool × Driver O))
    (d : Driver O) (symbol : Nat) : Option (Bool × Driver O) :=
  if SgSymbolPtr.functionSymbol symbol ∈ d.p_valid_symbols then some (true, d)
  else
    match ast.isSgNamespaceDefinitionStatement (ast.symbol_get_scope symbol) with
    | none => some (true, recordFunctionSymbol d symbol none)
    | some namespace_scope =>
      match ast.get_namespaceDeclaration namespace_scope with
      | none => none
      | some parent_decl =>
        match ast.lookupNamespaceSymbolInParentScopes (ast.decl_get_name parent_decl)
            (ast.decl_get_scope parent_decl) with
        | none => none
        | some parent =>
          match resolveNamespace parent d with
          | none => none
          | some (false, d1) => some (false, d1)
          | some (true, d1) =>
            if SgSymbolPtr.namespaceSymbol parent ∈ d1.p_valid_symbols then
              some (true, recordFunctionSymbol d1 symbol
                (some (SgSymbolPtr.namespaceSymbol parent)))
            else none

/-- The assumption on `resolveValidParent<SgNamespaceSymbol>`: a call only ever adds
namespace symbols, so that for every function symbol the three tables are as before. -/
def OnlyAddsNamespaceSymbols (resolveNamespace : Nat → Driver O → Option (Bool × Driver O)) :
    Prop :=
  ∀ n d b d1, resolveNamespace n d = some (b, d1) →
    (∀ f, SgSymbolPtr.functionSymbol f ∈ d1.p_valid_symbols ↔
        SgSymbolPtr.functionSymbol f ∈ d.p_valid_symbols) ∧
    (∀ f, CodeThorn.mapFind (SgSymbolPtr.functionSymbol f) d1.p_parent_map =
        CodeThorn.mapFind (SgSymbolPtr.functionSymbol f) d.p_parent_map) ∧
    d1.p_function_symbols = d.p_function_symbols

/-- The pairing kept by lines 33-34 and 127-128, the only places where `p_parent_map` is
written, each right after the same symbol has been put into `p_valid_symbols` (and
nothing is ever erased): a function symbol with an entry in `p_parent_map` is in
`p_valid_symbols`. -/
def ParentsAreValid (d : Driver O) : Prop :=
  ∀ f, CodeThorn.mapFind (SgSymbolPtr.functionSymbol f) d.p_parent_map ≠ none →
    SgSymbolPtr.functionSymbol f ∈ d.p_valid_symbols

/-! ### A concrete driver -/

/-- A namespace resolver for the examples: it validates the namespace symbol with a null
parent and returns true. -/
def sampleResolveNamespace (n : Nat) (d : Driver Unit) : Option (Bool × Driver Unit) :=
  some (true,
    { d with
      p_valid_symbols := ptrSetInsert (SgSymbolPtr.namespaceSymbol n) d.p_valid_symbols
      p_parent_map := CodeThorn.mapInsert (SgSymbolPtr.namespaceSymbol n) none d.p_parent_map })

/-- An AST for the examples: function symbol 1 is declared at global scope (scope 40),
every other function symbol in the namespace definition 50 of the declaration 60 of
namespace `N`, whose symbol is 7. -/
def sampleAst : SageAst :=
  { symbol_get_scope := fun f => if f = 1 then 40 else 50
    isSgNamespaceDefinitionStatement := fun sc => if sc = 50 then some 50 else none
    get_namespaceDeclaration := fun _ => some 60
    decl_get_name := fun _ => "N"
    decl_get_scope := fun _ => 40
    lookupNamespaceSymbolInParentScopes := fun _ _ => some 7 }

/-- A driver with empty symbol tables. -/
def emptyTables : Driver Unit :=
  { p_symbol_to_file_id_map := []
    p_valid_symbols := []
    p_parent_map := []
    p_function_symbols := []
    others := () }

end Driver

end MultiFileBuilder

/-! # Theorems -/

namespace CodeThorn

/-! ## The input-value set -/

theorem mem_setInsert (i y : Int) (s : List Int) : y ∈ setInsert i s ↔ y = i ∨ y ∈ s := by
  induction s with
  | nil => simp [setInsert]
  | cons x xs ih =>
    unfold setInsert
    by_cases h1 : i < x
    · simp [h1]
    · by_cases h2 : i = x
      · subst h2
        simp
      · simp only [h1, h2, if_false, List.mem_cons, ih]
        tauto

theorem sorted_setInsert (i : Int) (s : List Int) (hs : s.Sorted (· < ·)) :
    (setInsert i s).Sorted (· < ·) := by
  induction s with
  | nil => simp [setInsert]
  | cons x xs ih =>
    have hx := List.sorted_cons.mp hs
    unfold setInsert
    by_cases h1 : i < x
    · simp only [h1, if_true]
      refine List.sorted_cons.mpr ⟨?_, hs⟩
      intro b hb
      rcases List.mem_cons.mp hb with rfl | hb
      · exact h1
      · exact lt_trans h1 (hx.1 b hb)
    · by_cases h2 : i = x
      · simp [h1, h2, hs]
      · simp only [h1, h2, if_false]
        refine List.sorted_cons.mpr ⟨?_, ih hx.2⟩
        intro b hb
        rcases (mem_setInsert i b xs).mp hb with rfl | hb
        · omega
        · exact hx.1 b hb

theorem setInsert_of_mem (i : Int) (s : List Int) (hs : s.Sorted (· < ·)) (hi : i ∈ s) :
    setInsert i s = s := by
  induction s with
  | nil => simp at hi
  | cons x xs ih =>
    have hx := List.sorted_cons.mp hs
    unfold setInsert
    rcases List.mem_cons.mp hi with rfl | hi
    · simp
    · have hlt : x < i := hx.1 i hi
      have h1 : ¬ i < x := by omega
      have h2 : ¬ i = x := by omega
      simp only [h1, h2, if_false, ih hx.2 hi]

/-- The set reached from `s` by a sequence of insertions. -/
theorem inputVarValues_insertInputVarValues {EA VM : Type} (a : Analyzer EA VM)
    (vals : List Int) :
    (a.insertInputVarValues vals)._inputVarValues
      = vals.foldl (fun s i => setInsert i s) a._inputVarValues := by
  induction vals generalizing a with
  | nil => rfl
  | cons v vs ih =>
    simp only [Analyzer.insertInputVarValues, List.foldl_cons] at ih ⊢
    rw [ih]
    rfl

theorem sorted_foldl_setInsert (vals s : List Int) (hs : s.Sorted (· < ·)) :
    (vals.foldl (fun s i => setInsert i s) s).Sorted (· < ·) := by
  induction vals generalizing s with
  | nil => simpa using hs
  | cons v vs ih => exact ih _ (sorted_setInsert v s hs)

theorem mem_foldl_setInsert (vals s : List Int) (y : Int) :
    y ∈ vals.foldl (fun s i => setInsert i s) s ↔ y ∈ vals ∨ y ∈ s := by
  induction vals generalizing s with
  | nil => simp
  | cons v vs ih =>
    simp only [List.foldl_cons, ih, mem_setInsert, List.mem_cons]
    tauto

/-- From the empty set, a sequence of insertions yields the ascending list of the
distinct values inserted. -/
theorem foldl_setInsert_eq_sort (vals : List Int) :
    vals.foldl (fun s i => setInsert i s) [] = vals.toFinset.sort (· ≤ ·) := by
  have h1 : (vals.foldl (fun s i => setInsert i s) []).Sorted (· < ·) :=
    sorted_foldl_setInsert vals [] List.sorted_nil
  have h2 : (vals.toFinset.sort (· ≤ ·)).Sorted (· ≤ ·) := Finset.sort_sorted _ _
  refine List.eq_of_perm_of_sorted ?_ (h1.imp le_of_lt) h2
  refine (List.perm_ext_iff_of_nodup h1.nodup (Finset.sort_nodup _ _)).mpr ?_
  intro y
  simp [mem_foldl_setInsert]

theorem inputVarValues_of_fresh {EA VM : Type} (a : Analyzer EA VM) (vals : List Int)
    (hfresh : a._inputVarValues = []) :
    (a.insertInputVarValues vals)._inputVarValues = vals.toFinset.sort (· ≤ ·) := by
  rw [inputVarValues_insertInputVarValues, hfresh, foldl_setInsert_eq_sort]

/-- Insertions touch no member other than `_inputVarValues`. -/
theorem insertInputVarValues_eq {EA VM : Type} (a : Analyzer EA VM) (vals : List Int) :
    a.insertInputVarValues vals
      = { a with _inputVarValues := (a.insertInputVarValues vals)._inputVarValues } := by
  induction vals generalizing a with
  | nil => rfl
  | cons v vs ih =>
    have h := ih (a.insertInputVarValue v)
    simp only [Analyzer.insertInputVarValues, List.foldl_cons] at h ⊢
    rw [h]
    rfl

theorem numberOfInputVarValues_of_fresh {EA VM : Type} (a : Analyzer EA VM) (vals : List Int)
    (hfresh : a._inputVarValues = []) :
    (a.insertInputVarValues vals).numberOfInputVarValues
      = toInt32 (vals.toFinset.card : Nat) := by
  unfold Analyzer.numberOfInputVarValues setSize
  rw [inputVarValues_of_fresh a vals hfresh, Finset.length_sort]

theorem toInt32_of_le (n : Nat) (h : n ≤ 2147483647) : toInt32 (n : Int) = n := by
  unfold toInt32
  omega

end CodeThorn

namespace CodeThorn

/-- C5 (amended). From a fresh analyzer (empty input-value set), after any sequence of
`insertInputVarValue` calls: `numberOfInputVarValues()` is the number of distinct
integers inserted as long as that number fits in `int` (at most 2147483647); inserting a
value already present changes nothing; two sequences with the same values, in any order
and multiplicity, give the same analyzer; and with no insertion the count is 0. -/
theorem inputVarValues_is_set {EA VM : Type} (a : Analyzer EA VM) (vals : List Int)
    (hfresh : a._inputVarValues = []) :
    (vals.toFinset.card ≤ 2147483647 →
      (a.insertInputVarValues vals).numberOfInputVarValues = (vals.toFinset.card : Int)) ∧
    (∀ i ∈ vals,
      (a.insertInputVarValues vals).insertInputVarValue i = a.insertInputVarValues vals) ∧
    (∀ vals2 : List Int, (∀ x, x ∈ vals ↔ x ∈ vals2) →
      a.insertInputVarValues vals2 = a.insertInputVarValues vals) ∧
    a.numberOfInputVarValues = 0 := by
  refine ⟨?_, ?_, ?_, ?_⟩
  · intro hle
    rw [numberOfInputVarValues_of_fresh a vals hfresh]
    exact toInt32_of_le _ hle
  · intro i hi
    have hs : ((a.insertInputVarValues vals)._inputVarValues).Sorted (· < ·) := by
      rw [inputVarValues_insertInputVarValues, hfresh]
      exact sorted_foldl_setInsert vals [] List.sorted_nil
    have hm : i ∈ (a.insertInputVarValues vals)._inputVarValues := by
      rw [inputVarValues_insertInputVarValues]
      exact (mem_foldl_setInsert vals _ i).mpr (Or.inl hi)
    unfold Analyzer.insertInputVarValue
    rw [setInsert_of_mem i _ hs hm]
  · intro vals2 hsame
    have hfin : vals2.toFinset = vals.toFinset := by
      ext x
      simp [hsame x]
    rw [insertInputVarValues_eq a vals2, insertInputVarValues_eq a vals,
      inputVarValues_of_fresh a vals2 hfresh, inputVarValues_of_fresh a vals hfresh, hfin]
  · unfold Analyzer.numberOfInputVarValues setSize
    rw [hfresh]
    rfl

/-- C5, witness: the insertions 3, 1, 3, 2 into a fresh analyzer. -/
theorem inputVarValues_is_set_witness :
    (Analyzer.initial 10000 1 2 5000)._inputVarValues = [] ∧
    ([3, 1, 3, 2] : List Int).toFinset.card ≤ 2147483647 ∧
    ((Analyzer.initial 10000 1 2 5000).insertInputVarValues [3, 1, 3, 2]).numberOfInputVarValues
      = (([3, 1, 3, 2] : List Int).toFinset.card : Int) :=
  ⟨rfl, by decide,
    (inputVarValues_is_set (Analyzer.initial 10000 1 2 5000) [3, 1, 3, 2] rfl).1 (by decide)⟩

/-- C5, counterexample: after the 2147483648 insertions 0, 1, ..., 2147483647 into a fresh
analyzer, `numberOfInputVarValues()` is -2147483648, not the 2147483648 distinct
integers inserted. -/
theorem numberOfInputVarValues_wraps :
    ((List.range 2147483648).map Int.ofNat).toFinset.card = 2147483648 ∧
    ((Analyzer.initial 10000 1 2 5000).insertInputVarValues
        ((List.range 2147483648).map Int.ofNat)).numberOfInputVarValues = -2147483648 ∧
    ((Analyzer.initial 10000 1 2 5000).insertInputVarValues
        ((List.range 2147483648).map Int.ofNat)).numberOfInputVarValues
      ≠ ((((List.range 2147483648).map Int.ofNat).toFinset.card : Nat) : Int) := by
  have hcard : ∀ n : Nat, ((List.range n).map Int.ofNat).toFinset.card = n := by
    intro n
    rw [List.toFinset_card_of_nodup ((List.nodup_range n).map Int.ofNat_injective),
      List.length_map, List.length_range]
  have hnum : ∀ n : Nat, ((Analyzer.initial 10000 1 2 5000).insertInputVarValues
      ((List.range n).map Int.ofNat)).numberOfInputVarValues = toInt32 (n : Int) := by
    intro n
    rw [numberOfInputVarValues_of_fresh _ _ rfl, hcard n]
  refine ⟨hcard _, ?_, ?_⟩
  · rw [hnum]
    decide
  · rw [hnum, hcard]
    decide

end CodeThorn

namespace CodeThorn

/-! ## Configuration setters -/

/-- C6. Each configuration setter writes its own member and nothing else: the member has
the argument as its value afterwards, and putting the old value of that one member back
gives the analyzer as it was before the call (so every other member, the other
configuration members and the input-value set among them, is unchanged);
`insertInputVarValue` changes only `_inputVarValues`; `getLTLVerifier()` after
`setLTLVerifier(v)` is `v` and `getCFAnalyzer()` after `setCFAnalyzer(cf)` is `cf`. -/
theorem setters_write_own_field {EA VM : Type} (a : Analyzer EA VM) (cf : CFAnalyzerPtr)
    (d t v n i : Int) :
    ((a.setCFAnalyzer cf).cfanalyzer = cf ∧
      { a.setCFAnalyzer cf with cfanalyzer := a.cfanalyzer } = a) ∧
    ((a.setDisplayDiff d)._displayDiff = d ∧
      { a.setDisplayDiff d with _displayDiff := a._displayDiff } = a) ∧
    ((a.setSemanticFoldThreshold t)._semanticFoldThreshold = t ∧
      { a.setSemanticFoldThreshold t with _semanticFoldThreshold := a._semanticFoldThreshold }
        = a) ∧
    ((a.setLTLVerifier v)._ltlVerifier = v ∧
      { a.setLTLVerifier v with _ltlVerifier := a._ltlVerifier } = a) ∧
    ((a.setNumberOfThreadsToUse n)._numberOfThreadsToUse = n ∧
      { a.setNumberOfThreadsToUse n with _numberOfThreadsToUse := a._numberOfThreadsToUse }
        = a) ∧
    ({ a.insertInputVarValue i with _inputVarValues := a._inputVarValues } = a) ∧
    (a.setLTLVerifier v).getLTLVerifier = v ∧
    (a.setCFAnalyzer cf).getCFAnalyzer = cf :=
  ⟨⟨rfl, rfl⟩, ⟨rfl, rfl⟩, ⟨rfl, rfl⟩, ⟨rfl, rfl⟩, ⟨rfl, rfl⟩, rfl, rfl, rfl⟩

/-! ## `AstNodeInfo` -/

/-- C7. A freshly constructed `AstNodeInfo` has label 0, initial label 0 and an empty
final-label set; `setLabel`, `setInitialLabel` and `setFinalLabels` each set their own
member and leave the other two as they were; `toString` renders the three members after
`lab:`, `init:` and `final:`, in that order. -/
theorem astNodeInfo_fields (labelSetToString : List Label → String) (n : AstNodeInfo)
    (l : Label) (lset : List Label) :
    (AstNodeInfo.new.label = 0 ∧ AstNodeInfo.new.initialLabel = 0 ∧
      AstNodeInfo.new.finalLabelsSet = []) ∧
    ((n.setLabel l).label = l ∧ (n.setLabel l).initialLabel = n.initialLabel ∧
      (n.setLabel l).finalLabelsSet = n.finalLabelsSet) ∧
    ((n.setInitialLabel l).label = n.label ∧ (n.setInitialLabel l).initialLabel = l ∧
      (n.setInitialLabel l).finalLabelsSet = n.finalLabelsSet) ∧
    ((n.setFinalLabels lset).label = n.label ∧
      (n.setFinalLabels lset).initialLabel = n.initialLabel ∧
      (n.setFinalLabels lset).finalLabelsSet = lset) ∧
    AstNodeInfo.toString labelSetToString n
      = "\\n lab:" ++ Nat.repr n.label ++ " init:" ++ Nat.repr n.initialLabel
          ++ " final:" ++ labelSetToString n.finalLabelsSet ∧
    AstNodeInfo.toString labelSetToString (n.setLabel l)
      = "\\n lab:" ++ Nat.repr l ++ " init:" ++ Nat.repr n.initialLabel
          ++ " final:" ++ labelSetToString n.finalLabelsSet ∧
    AstNodeInfo.toString labelSetToString (n.setInitialLabel l)
      = "\\n lab:" ++ Nat.repr n.label ++ " init:" ++ Nat.repr l
          ++ " final:" ++ labelSetToString n.finalLabelsSet ∧
    AstNodeInfo.toString labelSetToString (n.setFinalLabels lset)
      = "\\n lab:" ++ Nat.repr n.label ++ " init:" ++ Nat.repr n.initialLabel
          ++ " final:" ++ labelSetToString lset ∧
    AstNodeInfo.toString labelSetToString AstNodeInfo.new
      = "\\n lab:0 init:0 final:" ++ labelSetToString [] := by
  refine ⟨⟨rfl, rfl, rfl⟩, ⟨rfl, rfl, rfl⟩, ⟨rfl, rfl, rfl⟩, ⟨rfl, rfl, rfl⟩, ?_, ?_, ?_, ?_, ?_⟩
  · simp [AstNodeInfo.toString, String.append_assoc]
  · simp [AstNodeInfo.toString, AstNodeInfo.setLabel, String.append_assoc]
  · simp [AstNodeInfo.toString, AstNodeInfo.setInitialLabel, String.append_assoc]
  · simp [AstNodeInfo.toString, AstNodeInfo.setFinalLabels, String.append_assoc]
  · have h0 : Nat.repr 0 = "0" := by decide
    simp [AstNodeInfo.toString, AstNodeInfo.new, String.append_assoc, h0]

/-! ## `labelNameOfAssertLabel` -/

theorem string_length_pos_iff (s : String) : s.length > 0 ↔ s ≠ "" := by
  rw [gt_iff_lt, Nat.pos_iff_ne_zero]
  constructor
  · rintro h rfl
    exact h rfl
  · intro h h0
    exact h (String.ext (List.length_eq_zero.mp h0))

/-- The scan keeps the name of the last matching pair, or the start value if no pair
matches. -/
theorem foldl_scan_eq (getLabel : SgNodePtr → Label)
    (getLabelName : SgLabelStatementPtr → String) (lab : Label)
    (nodes : List (SgLabelStatementPtr × SgNodePtr)) (acc : String) :
    nodes.foldl (fun labelName i => if lab = getLabel i.2 then getLabelName i.1 else labelName)
        acc
      = match (nodes.filter (fun i => decide (lab = getLabel i.2))).getLast? with
        | none => acc
        | some p => getLabelName p.1 := by
  induction nodes generalizing acc with
  | nil => rfl
  | cons x xs ih =>
    rw [List.foldl_cons, ih, List.filter_cons]
    by_cases hx : lab = getLabel x.2
    · simp only [hx, if_true, decide_True, List.getLast?_cons]
      cases (List.filter (fun i => decide (getLabel x.2 = getLabel i.2)) xs).getLast? <;> rfl
    · simp only [hx, if_false, decide_False]
      rfl

/-- With a `CFAnalyzer` and its labeler in place, the loop is the plain scan. -/
theorem scanAssertNodes_ok {EA VM : Type} (cfGetLabeler : CFAnalyzerPtr → LabelerPtr)
    (labelerGetLabel : LabelerPtr → SgNodePtr → Label)
    (getLabelName : SgLabelStatementPtr → String) (a : Analyzer EA VM) (lab : Label)
    (hcf : a.cfanalyzer ≠ 0) (hlb : cfGetLabeler a.cfanalyzer ≠ 0)
    (nodes : List (SgLabelStatementPtr × SgNodePtr)) (acc : String) :
    a.scanAssertNodes cfGetLabeler labelerGetLabel getLabelName lab nodes acc
      = Except.ok (nodes.foldl (fun labelName i =>
          if lab = labelerGetLabel (cfGetLabeler a.cfanalyzer) i.2 then getLabelName i.1
          else labelName) acc) := by
  induction nodes generalizing acc with
  | nil => rfl
  | cons x xs ih =>
    simp only [Analyzer.scanAssertNodes, Analyzer.getLabeler, hcf, hlb, if_false, ih,
      List.foldl_cons]

/-- Without a `CFAnalyzer`, a call with a registered assertion stops on the null
dereference in the first iteration. -/
theorem labelNameOfAssertLabel_null {EA VM : Type} (cfGetLabeler : CFAnalyzerPtr → LabelerPtr)
    (labelerGetLabel : LabelerPtr → SgNodePtr → Label)
    (getLabelName : SgLabelStatementPtr → String) (a : Analyzer EA VM) (lab : Label)
    (hcf : a.cfanalyzer = 0) (hne : a._assertNodes ≠ []) :
    a.labelNameOfAssertLabel cfGetLabeler labelerGetLabel getLabelName lab
      = Except.error Abort.nullPointer := by
  obtain ⟨x, xs, hx⟩ := List.exists_cons_of_ne_nil hne
  simp [Analyzer.labelNameOfAssertLabel, hx, Analyzer.scanAssertNodes, Analyzer.getLabeler, hcf]

/-- The result of `labelNameOfAssertLabel` in terms of the last matching pair. -/
theorem labelNameOfAssertLabel_eq {EA VM : Type} (cfGetLabeler : CFAnalyzerPtr → LabelerPtr)
    (labelerGetLabel : LabelerPtr → SgNodePtr → Label)
    (getLabelName : SgLabelStatementPtr → String) (a : Analyzer EA VM) (lab : Label)
    (hcf : a.cfanalyzer ≠ 0) (hlb : cfGetLabeler a.cfanalyzer ≠ 0) :
    a.labelNameOfAssertLabel cfGetLabeler labelerGetLabel getLabelName lab
      = match (a._assertNodes.filter (fun i =>
            decide (lab = labelerGetLabel (cfGetLabeler a.cfanalyzer) i.2))).getLast? with
        | none => Except.error Abort.assertion
        | some p =>
          if getLabelName p.1 = "" then Except.error Abort.assertion
          else Except.ok (getLabelName p.1, a) := by
  unfold Analyzer.labelNameOfAssertLabel
  rw [scanAssertNodes_ok cfGetLabeler labelerGetLabel getLabelName a lab hcf hlb, foldl_scan_eq]
  cases h : (a._assertNodes.filter (fun i =>
      decide (lab = labelerGetLabel (cfGetLabeler a.cfanalyzer) i.2))).getLast? with
  | none => simp
  | some p =>
    by_cases hp : getLabelName p.1 = ""
    · simp [hp]
    · simp [hp, (string_length_pos_iff _).mpr hp]

end CodeThorn

namespace CodeThorn

/-- C8. With a `CFAnalyzer` and its labeler in place (the call dereferences both),
`labelNameOfAssertLabel(lab)` scans all of `_assertNodes` and keeps the last match: it
returns the label name of the last pair, in list order, whose assert node has label
`lab` (the analyzer being as before); it fails on its assertion exactly when no pair
matches or the name of that last matching pair is empty, and it fails in no other way; a
returned name is never empty. -/
theorem labelNameOfAssertLabel_last_match {EA VM : Type}
    (cfGetLabeler : CFAnalyzerPtr → LabelerPtr)
    (labelerGetLabel : LabelerPtr → SgNodePtr → Label)
    (getLabelName : SgLabelStatementPtr → String) (a : Analyzer EA VM) (lab : Label)
    (hcf : a.cfanalyzer ≠ 0) (hlb : cfGetLabeler a.cfanalyzer ≠ 0) :
    (a.labelNameOfAssertLabel cfGetLabeler labelerGetLabel getLabelName lab
      = match (a._assertNodes.filter (fun i =>
            decide (lab = labelerGetLabel (cfGetLabeler a.cfanalyzer) i.2))).getLast? with
        | none => Except.error Abort.assertion
        | some p =>
          if getLabelName p.1 = "" then Except.error Abort.assertion
          else Except.ok (getLabelName p.1, a)) ∧
    (a.labelNameOfAssertLabel cfGetLabeler labelerGetLabel getLabelName lab
        = Except.error Abort.assertion ↔
      ((∀ p ∈ a._assertNodes, labelerGetLabel (cfGetLabeler a.cfanalyzer) p.2 ≠ lab) ∨
        ∃ p, (a._assertNodes.filter (fun i =>
            decide (lab = labelerGetLabel (cfGetLabeler a.cfanalyzer) i.2))).getLast? = some p
          ∧ getLabelName p.1 = "")) ∧
    (∀ e, a.labelNameOfAssertLabel cfGetLabeler labelerGetLabel getLabelName lab
        = Except.error e → e = Abort.assertion) ∧
    (∀ name a1, a.labelNameOfAssertLabel cfGetLabeler labelerGetLabel getLabelName lab
        = Except.ok (name, a1) → name ≠ "") := by
  have hnone : (a._assertNodes.filter (fun i =>
        decide (lab = labelerGetLabel (cfGetLabeler a.cfanalyzer) i.2))).getLast? = none
      ↔ ∀ p ∈ a._assertNodes, labelerGetLabel (cfGetLabeler a.cfanalyzer) p.2 ≠ lab := by
    rw [List.getLast?_eq_none_iff, List.filter_eq_nil_iff]
    constructor
    · intro h p hp hl
      exact h p hp (by simp [hl])
    · intro h p hp hl
      exact h p hp (of_decide_eq_true hl).symm
  have heq := labelNameOfAssertLabel_eq cfGetLabeler labelerGetLabel getLabelName a lab hcf hlb
  refine ⟨heq, ?_, ?_, ?_⟩
  · rw [heq]
    cases h : (a._assertNodes.filter (fun i =>
        decide (lab = labelerGetLabel (cfGetLabeler a.cfanalyzer) i.2))).getLast? with
    | none =>
      simp only [true_iff]
      exact Or.inl (hnone.mp h)
    | some p =>
      have hne : ¬ ∀ q ∈ a._assertNodes,
          labelerGetLabel (cfGetLabeler a.cfanalyzer) q.2 ≠ lab := by
        intro hall
        rw [hnone.mpr hall] at h
        exact Option.noConfusion h
      by_cases hp : getLabelName p.1 = ""
      · simp only [hp, if_true, true_iff]
        exact Or.inr ⟨p, rfl, hp⟩
      · simp only [hp, if_false]
        constructor
        · intro hcontra
          exact Except.noConfusion hcontra
        · rintro (hall | ⟨q, hq, hq2⟩)
          · exact absurd hall hne
          · cases hq
            exact absurd hq2 hp
  · intro e hres
    rw [heq] at hres
    cases h : (a._assertNodes.filter (fun i =>
        decide (lab = labelerGetLabel (cfGetLabeler a.cfanalyzer) i.2))).getLast? with
    | none =>
      rw [h] at hres
      exact (Except.error.inj hres).symm
    | some p =>
      rw [h] at hres
      by_cases hp : getLabelName p.1 = ""
      · simp only [hp, if_true] at hres
        exact (Except.error.inj hres).symm
      · simp only [hp, if_false] at hres
        exact Except.noConfusion hres
  · intro name a1 hres
    rw [heq] at hres
    cases h : (a._assertNodes.filter (fun i =>
        decide (lab = labelerGetLabel (cfGetLabeler a.cfanalyzer) i.2))).getLast? with
    | none =>
      rw [h] at hres
      exact Except.noConfusion hres
    | some p =>
      rw [h] at hres
      by_cases hp : getLabelName p.1 = ""
      · simp only [hp, if_true] at hres
        exact Except.noConfusion hres
      · simp only [hp, if_false, Except.ok.injEq, Prod.mk.injEq] at hres
        rw [← hres.1]
        exact hp

/-- C8, witness: with a `CFAnalyzer` installed, label 1 carried by the first and the
third registered assertion resolves to the name of the third. -/
theorem labelNameOfAssertLabel_last_match_witness :
    Analyzer.withAsserts.cfanalyzer ≠ 0 ∧
    Analyzer.sampleCfGetLabeler Analyzer.withAsserts.cfanalyzer ≠ 0 ∧
    Analyzer.withAsserts.labelNameOfAssertLabel Analyzer.sampleCfGetLabeler
        Analyzer.sampleGetLabel Analyzer.sampleGetLabelName 1
      = Except.ok ("error_3", Analyzer.withAsserts) :=
  ⟨by decide, by decide,
    (labelNameOfAssertLabel_last_match Analyzer.sampleCfGetLabeler Analyzer.sampleGetLabel
      Analyzer.sampleGetLabelName Analyzer.withAsserts 1 (by decide) (by decide)).1.trans rfl⟩

/-- C4. With a `CFAnalyzer` and its labeler in place (the labels of the assert nodes come
from them): if the pair `p` is registered in `_assertNodes`, its assert node has label
`lab`, every registered pair whose assert node has label `lab` is `p`, and the label
statement of `p` has a non-empty name, then `labelNameOfAssertLabel(lab)` returns the
name of the label statement of `p`, with the analyzer (and so `_assertNodes`) unchanged;
the returned name is therefore not a different name carried by another registered
pair. -/
theorem labelNameOfAssertLabel_unique {EA VM : Type}
    (cfGetLabeler : CFAnalyzerPtr → LabelerPtr)
    (labelerGetLabel : LabelerPtr → SgNodePtr → Label)
    (getLabelName : SgLabelStatementPtr → String) (a : Analyzer EA VM) (lab : Label)
    (p : SgLabelStatementPtr × SgNodePtr)
    (hcf : a.cfanalyzer ≠ 0) (hlb : cfGetLabeler a.cfanalyzer ≠ 0)
    (hmem : p ∈ a._assertNodes)
    (hlab : labelerGetLabel (cfGetLabeler a.cfanalyzer) p.2 = lab)
    (huniq : ∀ q ∈ a._assertNodes,
      labelerGetLabel (cfGetLabeler a.cfanalyzer) q.2 = lab → q = p)
    (hname : getLabelName p.1 ≠ "") :
    a.labelNameOfAssertLabel cfGetLabeler labelerGetLabel getLabelName lab
      = Except.ok (getLabelName p.1, a) ∧
    (∀ q ∈ a._assertNodes, getLabelName q.1 ≠ getLabelName p.1 →
      a.labelNameOfAssertLabel cfGetLabeler labelerGetLabel getLabelName lab
        ≠ Except.ok (getLabelName q.1, a)) := by
  have hres : a.labelNameOfAssertLabel cfGetLabeler labelerGetLabel getLabelName lab
      = Except.ok (getLabelName p.1, a) := by
    rw [labelNameOfAssertLabel_eq cfGetLabeler labelerGetLabel getLabelName a lab hcf hlb]
    cases h : (a._assertNodes.filter (fun i =>
        decide (lab = labelerGetLabel (cfGetLabeler a.cfanalyzer) i.2))).getLast? with
    | none =>
      rw [List.getLast?_eq_none_iff, List.filter_eq_nil_iff] at h
      exact absurd (by simp [hlab]) (h p hmem)
    | some q =>
      have hq := List.mem_filter.mp (List.mem_of_getLast?_eq_some h)
      have hqp : q = p := huniq q hq.1 (of_decide_eq_true hq.2).symm
      subst hqp
      simp [hname]
  refine ⟨hres, ?_⟩
  intro q _ hq
  rw [hres]
  intro h
  simp only [Except.ok.injEq, Prod.mk.injEq, and_true] at h
  exact hq h.symm

/-- C4, witness: with a `CFAnalyzer` installed, label 2 is carried by the second
registered assertion only and resolves to its name. -/
theorem labelNameOfAssertLabel_unique_witness :
    Analyzer.withAsserts.cfanalyzer ≠ 0 ∧
    Analyzer.sampleCfGetLabeler Analyzer.withAsserts.cfanalyzer ≠ 0 ∧
    Analyzer.withAsserts.labelNameOfAssertLabel Analyzer.sampleCfGetLabeler
        Analyzer.sampleGetLabel Analyzer.sampleGetLabelName 2
      = Except.ok ("error_2", Analyzer.withAsserts) :=
  ⟨by decide, by decide,
    (labelNameOfAssertLabel_unique Analyzer.sampleCfGetLabeler Analyzer.sampleGetLabel
      Analyzer.sampleGetLabelName Analyzer.withAsserts 2 (11, 101)
      (by decide) (by decide) (by decide) (by decide) (by decide) (by decide)).1⟩

/-! ## `globalVarIdByName` -/

theorem mapFind_append_single {K V : Type} [DecidableEq K] (k k1 : K) (v : V)
    (m : List (K × V)) :
    mapFind k (m ++ [(k1, v)])
      = match mapFind k m with
        | some x => some x
        | none => if k = k1 then some v else none := by
  induction m with
  | nil => simp [mapFind]
  | cons e m ih =>
    obtain ⟨k2, v2⟩ := e
    simp only [List.cons_append, mapFind]
    by_cases h : k = k2
    · simp [h]
    · simp [h, ih]

/-- C9. `globalVarIdByName(name)`: when `name` is registered, the registered id is
returned and the analyzer is unchanged; when it is not, the default-constructed id is
returned, the mapping afterwards binds `name` to that id, every other name is mapped as
before, every other member of the analyzer is unchanged, and a second lookup of `name`
returns the same default id without a further change. -/
theorem globalVarIdByName_lookup {EA VM : Type} (dflt : VariableId) (a : Analyzer EA VM)
    (name : String) :
    (∀ v, mapFind name a.globalVarName2VarIdMapping = some v →
      a.globalVarIdByName dflt name = (v, a)) ∧
    (mapFind name a.globalVarName2VarIdMapping = none →
      (a.globalVarIdByName dflt name).1 = dflt ∧
      mapFind name (a.globalVarIdByName dflt name).2.globalVarName2VarIdMapping = some dflt ∧
      (∀ other, other ≠ name →
        mapFind other (a.globalVarIdByName dflt name).2.globalVarName2VarIdMapping
          = mapFind other a.globalVarName2VarIdMapping) ∧
      { (a.globalVarIdByName dflt name).2 with
          globalVarName2VarIdMapping := a.globalVarName2VarIdMapping } = a ∧
      (a.globalVarIdByName dflt name).2.globalVarIdByName dflt name
        = (dflt, (a.globalVarIdByName dflt name).2)) := by
  constructor
  · intro v hv
    simp [Analyzer.globalVarIdByName, mapIndex, hv]
  · intro hnone
    have hmap : (a.globalVarIdByName dflt name).2.globalVarName2VarIdMapping
        = a.globalVarName2VarIdMapping ++ [(name, dflt)] := by
      simp [Analyzer.globalVarIdByName, mapIndex, hnone]
    have hfind : mapFind name (a.globalVarName2VarIdMapping ++ [(name, dflt)]) = some dflt := by
      rw [mapFind_append_single, hnone]
      simp
    refine ⟨?_, ?_, ?_, ?_, ?_⟩
    · simp [Analyzer.globalVarIdByName, mapIndex, hnone]
    · rw [hmap, hfind]
    · intro other hother
      rw [hmap, mapFind_append_single]
      cases mapFind other a.globalVarName2VarIdMapping with
      | none => simp [hother]
      | some x => rfl
    · rfl
    · have h2 : ∀ b : Analyzer EA VM, mapFind name b.globalVarName2VarIdMapping = some dflt →
          b.globalVarIdByName dflt name = (dflt, b) := by
        intro b hb
        simp [Analyzer.globalVarIdByName, mapIndex, hb]
      exact h2 _ (by rw [hmap, hfind])

/-- C9, witness: with `x` registered as 4 and default id 0, looking up `x` gives 4 and
changes nothing, looking up `y` gives 0 and binds `y` to 0. -/
theorem globalVarIdByName_lookup_witness :
    ({ Analyzer.initial 10000 1 2 5000 with globalVarName2VarIdMapping := [("x", 4)] }
        : Analyzer Unit Unit).globalVarIdByName 0 "x"
      = (4, { Analyzer.initial 10000 1 2 5000 with globalVarName2VarIdMapping := [("x", 4)] }) ∧
    (({ Analyzer.initial 10000 1 2 5000 with globalVarName2VarIdMapping := [("x", 4)] }
        : Analyzer Unit Unit).globalVarIdByName 0 "y").1 = 0 ∧
    mapFind "y" (({ Analyzer.initial 10000 1 2 5000 with
        globalVarName2VarIdMapping := [("x", 4)] }
        : Analyzer Unit Unit).globalVarIdByName 0 "y").2.globalVarName2VarIdMapping = some 0 :=
  ⟨(globalVarIdByName_lookup 0
      { Analyzer.initial 10000 1 2 5000 with globalVarName2VarIdMapping := [("x", 4)] } "x").1 4
      (by decide),
    ((globalVarIdByName_lookup 0
      { Analyzer.initial 10000 1 2 5000 with globalVarName2VarIdMapping := [("x", 4)] } "y").2
      (by decide)).1,
    ((globalVarIdByName_lookup 0
      { Analyzer.initial 10000 1 2 5000 with globalVarName2VarIdMapping := [("x", 4)] } "y").2
      (by decide)).2.1⟩

end CodeThorn

namespace CodeThorn

open Analyzer

/-! ## Interning -/

theorem internNewOrExisting_mem {α : Type} [DecidableEq α] (stateSet : List α) (s : α) :
    s ∈ (internNewOrExisting stateSet s).2 := by
  unfold internNewOrExisting
  by_cases h : s ∈ stateSet
  · simp [h]
  · simp [h]

theorem internNewOrExisting_ptr {α : Type} [DecidableEq α] (stateSet : List α) (s : α) :
    (internNewOrExisting stateSet s).1 = (internNewOrExisting stateSet s).2.indexOf s := by
  unfold internNewOrExisting
  by_cases h : s ∈ stateSet
  · simp [h]
  · simp [h, List.indexOf_append_of_not_mem h]

theorem internNewOrExisting_grows {α : Type} [DecidableEq α] (stateSet : List α) (s : α) :
    ∃ t, (internNewOrExisting stateSet s).2 = stateSet ++ t := by
  unfold internNewOrExisting
  by_cases h : s ∈ stateSet
  · exact ⟨[], by simp [h]⟩
  · exact ⟨[s], by simp [h]⟩

theorem getElem?_indexOf_of_mem {α : Type} [DecidableEq α] (l : List α) (s : α) (h : s ∈ l) :
    l[l.indexOf s]? = some s := by
  have hlt : l.indexOf s < l.length := List.indexOf_lt_length.mpr h
  rw [List.getElem?_eq_getElem hlt, List.getElem_indexOf hlt]

theorem internNewOrExisting_deref {α : Type} [DecidableEq α] (stateSet : List α) (s : α) :
    (internNewOrExisting stateSet s).2[(internNewOrExisting stateSet s).1]? = some s := by
  rw [internNewOrExisting_ptr]
  exact getElem?_indexOf_of_mem _ s (internNewOrExisting_mem stateSet s)

theorem getElem?_append_of_some {α : Type} (l t : List α) (i : Nat) (x : α)
    (h : l[i]? = some x) : (l ++ t)[i]? = some x := by
  obtain ⟨hlt, _⟩ := List.getElem?_eq_some.mp h
  rw [List.getElem?_append_left hlt, h]

/-- C3. The state returned by `createFailedAssertEState(e, target)` is recognised by
`isFailedAssertEState`, its io field is the failed-assert code, it has label `target`
and the program state of `e`; `isFailedAssertEState` is false for every state whose io
field is not the failed-assert code. -/
theorem createFailedAssertEState_recognised (e : EState) (target : Label) :
    isFailedAssertEState (createFailedAssertEState e target) = true ∧
    (createFailedAssertEState e target).io = InputOutput.failedAssert ∧
    (createFailedAssertEState e target).label = target ∧
    (createFailedAssertEState e target).pstate = e.pstate ∧
    (∀ q : EState, q.io ≠ InputOutput.failedAssert → isFailedAssertEState q = false) := by
  refine ⟨?_, rfl, rfl, rfl, ?_⟩
  · simp [isFailedAssertEState, createFailedAssertEState]
  · intro q hq
    simp [isFailedAssertEState, hq]

end CodeThorn

namespace CodeThorn

open Analyzer

/-! ## Transfer function, input statements -/

theorem PState.get_withSet (id : VariableId) (value : Value) (ps : PState) :
    (PState.withSet id value ps).get id = some value := by
  induction ps with
  | nil => simp [PState.withSet, PState.get, mapFind]
  | cons e ps ih =>
    obtain ⟨k, v⟩ := e
    unfold PState.withSet
    by_cases h1 : id < k
    · simp [h1, PState.get, mapFind]
    · by_cases h2 : id = k
      · simp [h2, PState.get, mapFind]
      · have ih2 : mapFind id (PState.withSet id value ps) = some value := ih
        simp [h1, h2, PState.get, mapFind, ih2]

theorem inputSuccessor_spec {EA VM : Type} (inputVar : VariableId) (edge : Edge) (q : EState)
    (ps : PState) (v : Value) (a : Analyzer EA VM) :
    (inputSuccessor inputVar edge q ps v a).1.label = edge.target ∧
    (inputSuccessor inputVar edge q ps v a).1.io = InputOutput.input v ∧
    (inputSuccessor inputVar edge q ps v a).1.cset = q.cset ∧
    (inputSuccessor inputVar edge q ps v a).2.pstateSet[
        (inputSuccessor inputVar edge q ps v a).1.pstate]?
      = some (PState.withSet inputVar v ps) ∧
    ∃ t, (inputSuccessor inputVar edge q ps v a).2.pstateSet = a.pstateSet ++ t :=
  ⟨rfl, rfl, rfl, internNewOrExisting_deref a.pstateSet _,
    internNewOrExisting_grows a.pstateSet _⟩

theorem inputSuccessors_spec {EA VM : Type} (inputVar : VariableId) (edge : Edge) (q : EState)
    (ps : PState) (ks : List Int) (a : Analyzer EA VM) :
    (inputSuccessors inputVar edge q ps ks a).1.map (fun s => s.io)
      = ks.map (fun k => InputOutput.input (Value.const k)) ∧
    (∀ s ∈ (inputSuccessors inputVar edge q ps ks a).1, s.label = edge.target) ∧
    (inputSuccessors inputVar edge q ps ks a).1.map
        (fun s => (inputSuccessors inputVar edge q ps ks a).2.pstateSet[s.pstate]?)
      = ks.map (fun k => some (PState.withSet inputVar (Value.const k) ps)) ∧
    ∃ t, (inputSuccessors inputVar edge q ps ks a).2.pstateSet = a.pstateSet ++ t := by
  induction ks generalizing a with
  | nil => exact ⟨rfl, by simp [inputSuccessors], rfl, ⟨[], by simp [inputSuccessors]⟩⟩
  | cons k ks ih =>
    obtain ⟨h1, h2, h3, h4, t1, ht1⟩ := inputSuccessor_spec inputVar edge q ps (Value.const k) a
    obtain ⟨i1, i2, i3, t2, ht2⟩ := ih (inputSuccessor inputVar edge q ps (Value.const k) a).2
    refine ⟨?_, ?_, ?_, ?_⟩
    · simp only [inputSuccessors, List.map_cons, h2, i1]
    · intro s hs
      simp only [inputSuccessors, List.mem_cons] at hs
      rcases hs with rfl | hs
      · exact h1
      · exact i2 s hs
    · simp only [inputSuccessors, List.map_cons, i3]
      congr 1
      rw [ht2]
      exact getElem?_append_of_some _ t2 _ _ h4
    · refine ⟨t1 ++ t2, ?_⟩
      simp only [inputSuccessors]
      rw [ht2, ht1, List.append_assoc]

/-- C2. On an edge whose source is an input statement reading `inputVar`, with the
input-value set built by `insertInputVarValue` calls from a fresh analyzer and at least
one value configured, `transferFunction` returns exactly one successor per distinct
configured value: their number is the number of distinct values, their io fields are
`input(v)` and their program states bind `inputVar` to `const(v)` for the values `v` in
ascending order, and each has the label of the edge target; the result is the same for
any other insertion sequence with the same values. -/
theorem transferFunctionInput_successors {EA VM : Type} (a0 : Analyzer EA VM)
    (vals : List Int) (inputVar : VariableId) (edge : Edge) (estate : EStatePtr) (q : EState)
    (ps : PState) (hfresh : a0._inputVarValues = []) (hk : vals ≠ [])
    (hq : (a0.insertInputVarValues vals).estateSet[estate]? = some q)
    (hps : (a0.insertInputVarValues vals).pstateSet[q.pstate]? = some ps) :
    (∃ succs a1,
      transferFunctionInput (a0.insertInputVarValues vals) inputVar edge estate
        = some (succs, a1) ∧
      succs.length = vals.toFinset.card ∧
      succs.map (fun s => s.io)
        = (vals.toFinset.sort (· ≤ ·)).map (fun v => InputOutput.input (Value.const v)) ∧
      succs.map (fun s => (a1.pstateSet[s.pstate]?).bind (fun p => p.get inputVar))
        = (vals.toFinset.sort (· ≤ ·)).map (fun v => some (Value.const v)) ∧
      (∀ s ∈ succs, s.label = edge.target)) ∧
    (∀ vals2 : List Int, (∀ x, x ∈ vals ↔ x ∈ vals2) →
      transferFunctionInput (a0.insertInputVarValues vals2) inputVar edge estate
        = transferFunctionInput (a0.insertInputVarValues vals) inputVar edge estate) := by
  have hset := inputVarValues_of_fresh a0 vals hfresh
  have hne : (a0.insertInputVarValues vals)._inputVarValues ≠ [] := by
    rw [hset]
    intro h
    have hlen := congrArg List.length h
    rw [Finset.length_sort] at hlen
    obtain ⟨x, xs, rfl⟩ := List.exists_cons_of_ne_nil hk
    have hx : x ∈ (x :: xs).toFinset := by simp
    have hpos := Finset.card_pos.mpr ⟨x, hx⟩
    simp only [List.length_nil] at hlen
    omega
  constructor
  · obtain ⟨i1, i2, i3, _⟩ := inputSuccessors_spec inputVar edge q ps
      (a0.insertInputVarValues vals)._inputVarValues (a0.insertInputVarValues vals)
    have hcall : transferFunctionInput (a0.insertInputVarValues vals) inputVar edge estate
        = some (inputSuccessors inputVar edge q ps (a0.insertInputVarValues vals)._inputVarValues
            (a0.insertInputVarValues vals)) := by
      unfold transferFunctionInput
      simp only [hq, hps, hne, if_false]
    rw [hcall]
    generalize inputSuccessors inputVar edge q ps (a0.insertInputVarValues vals)._inputVarValues
      (a0.insertInputVarValues vals) = r at i1 i2 i3
    rw [hset] at i1 i3
    refine ⟨r.1, r.2, rfl, ?_, i1, ?_, i2⟩
    · have hlen := congrArg List.length i1
      rw [List.length_map, List.length_map, Finset.length_sort] at hlen
      exact hlen
    · have hcomp := congrArg (List.map (fun o : Option PState =>
          o.bind (fun p => p.get inputVar))) i3
      rw [List.map_map, List.map_map] at hcomp
      refine Eq.trans hcomp ?_
      apply List.map_congr_left
      intro v _
      simp [PState.get_withSet]
  · intro vals2 hsame
    have hfin : vals2.toFinset = vals.toFinset := by
      ext x
      simp [hsame x]
    have heq : a0.insertInputVarValues vals2 = a0.insertInputVarValues vals := by
      rw [insertInputVarValues_eq a0 vals2, insertInputVarValues_eq a0 vals,
        inputVarValues_of_fresh a0 vals2 hfresh, inputVarValues_of_fresh a0 vals hfresh, hfin]
    rw [heq]

end CodeThorn

namespace CodeThorn

/-- C2, witness: the values 2, 0, 1 inserted in that order give the three successors
`input(0)`, `input(1)`, `input(2)`. -/
theorem transferFunctionInput_successors_witness :
    Analyzer.beforeInput._inputVarValues = [] ∧
    ([2, 0, 1] : List Int) ≠ [] ∧
    (Analyzer.beforeInput.insertInputVarValues [2, 0, 1]).estateSet[0]?
      = some { label := 1, pstate := 0, cset := 0, io := InputOutput.none } ∧
    (Analyzer.beforeInput.insertInputVarValues [2, 0, 1]).pstateSet[0]?
      = some [(5, Value.top)] ∧
    ∃ succs a1,
      Analyzer.transferFunctionInput (Analyzer.beforeInput.insertInputVarValues [2, 0, 1]) 5
          { source := 1, target := 2, kind := EdgeKind.intraprocedural } 0
        = some (succs, a1) ∧
      succs.length = ([2, 0, 1] : List Int).toFinset.card ∧
      succs.map (fun s => s.io)
        = (([2, 0, 1] : List Int).toFinset.sort (· ≤ ·)).map
            (fun v => InputOutput.input (Value.const v)) ∧
      succs.map (fun s => (a1.pstateSet[s.pstate]?).bind (fun p => p.get 5))
        = (([2, 0, 1] : List Int).toFinset.sort (· ≤ ·)).map (fun v => some (Value.const v)) ∧
      (∀ s ∈ succs, s.label = 2) :=
  ⟨rfl, by decide, rfl, rfl,
    (transferFunctionInput_successors Analyzer.beforeInput [2, 0, 1] 5
      { source := 1, target := 2, kind := EdgeKind.intraprocedural } 0
      { label := 1, pstate := 0, cset := 0, io := InputOutput.none } [(5, Value.top)]
      rfl (by decide) rfl rfl).1⟩

end CodeThorn

namespace MultiFileBuilder

open CodeThorn Driver

/-! ## `resolveValidParent<SgFunctionSymbol>` -/

theorem mem_ptrSetInsert {α : Type} [DecidableEq α] (x y : α) (s : List α) :
    y ∈ ptrSetInsert x s ↔ y = x ∨ y ∈ s := by
  unfold ptrSetInsert
  by_cases h : x ∈ s
  · simp only [h, if_true]
    constructor
    · exact Or.inr
    · rintro (rfl | hy)
      · exact h
      · exact hy
  · simp only [h, if_false, List.mem_append, List.mem_singleton]
    tauto

theorem mapFind_mapInsert_self {K V : Type} [DecidableEq K] (k : K) (v : V) (m : List (K × V))
    (h : mapFind k m = none) : mapFind k (mapInsert k v m) = some v := by
  unfold mapInsert
  rw [h]
  simp only
  rw [mapFind_append_single, h]
  simp

/-- The ways in which a call on a symbol that is not yet valid can return. -/
theorem resolveValidParentFunction_cases {O : Type} (ast : SageAst)
    (resolveNamespace : Nat → Driver O → Option (Bool × Driver O)) (d : Driver O) (s : Nat)
    (b : Bool) (d1 : Driver O)
    (hnew : SgSymbolPtr.functionSymbol s ∉ d.p_valid_symbols)
    (hres : resolveValidParentFunction ast resolveNamespace d s = some (b, d1)) :
    (ast.isSgNamespaceDefinitionStatement (ast.symbol_get_scope s) = none ∧ b = true ∧
      d1 = recordFunctionSymbol d s none) ∨
    (∃ parent b0 d0,
      ast.isSgNamespaceDefinitionStatement (ast.symbol_get_scope s) ≠ none ∧
      resolveNamespace parent d = some (b0, d0) ∧
      ((b0 = false ∧ b = false ∧ d1 = d0) ∨
        (b0 = true ∧ b = true ∧ SgSymbolPtr.namespaceSymbol parent ∈ d0.p_valid_symbols ∧
          d1 = recordFunctionSymbol d0 s (some (SgSymbolPtr.namespaceSymbol parent))))) := by
  unfold resolveValidParentFunction at hres
  simp only [hnew, if_false] at hres
  cases h1 : ast.isSgNamespaceDefinitionStatement (ast.symbol_get_scope s) with
  | none =>
    rw [h1] at hres
    simp only [Option.some.injEq, Prod.mk.injEq] at hres
    exact Or.inl ⟨rfl, hres.1.symm, hres.2.symm⟩
  | some sc =>
    rw [h1] at hres
    simp only at hres
    cases h2 : ast.get_namespaceDeclaration sc with
    | none =>
      rw [h2] at hres
      exact Option.noConfusion hres
    | some decl =>
      rw [h2] at hres
      simp only at hres
      cases h3 : ast.lookupNamespaceSymbolInParentScopes (ast.decl_get_name decl)
          (ast.decl_get_scope decl) with
      | none =>
        rw [h3] at hres
        exact Option.noConfusion hres
      | some parent =>
        rw [h3] at hres
        simp only at hres
        cases h4 : resolveNamespace parent d with
        | none =>
          rw [h4] at hres
          exact Option.noConfusion hres
        | some r =>
          obtain ⟨b0, d0⟩ := r
          rw [h4] at hres
          refine Or.inr ⟨parent, b0, d0, by simp, h4, ?_⟩
          cases b0 with
          | false =>
            simp only [Option.some.injEq, Prod.mk.injEq] at hres
            exact Or.inl ⟨rfl, hres.1.symm, hres.2.symm⟩
          | true =>
            simp only at hres
            by_cases h5 : SgSymbolPtr.namespaceSymbol parent ∈ d0.p_valid_symbols
            · simp only [h5, if_true, Option.some.injEq, Prod.mk.injEq] at hres
              exact Or.inr ⟨rfl, hres.1.symm, h5, hres.2.symm⟩
            · simp only [h5, if_false] at hres
              exact Option.noConfusion hres

end MultiFileBuilder

namespace MultiFileBuilder

open CodeThorn Driver

theorem sampleResolveNamespace_onlyAdds : OnlyAddsNamespaceSymbols sampleResolveNamespace := by
  intro n d b d1 h
  simp only [sampleResolveNamespace, Option.some.injEq, Prod.mk.injEq] at h
  obtain ⟨_, rfl⟩ := h
  refine ⟨?_, ?_, rfl⟩
  · intro f
    simp [mem_ptrSetInsert]
  · intro f
    simp only [mapInsert]
    cases hm : mapFind (SgSymbolPtr.namespaceSymbol n) d.p_parent_map with
    | some w => rfl
    | none =>
      simp only
      rw [mapFind_append_single]
      cases mapFind (SgSymbolPtr.functionSymbol f) d.p_parent_map with
      | none => simp
      | some x => rfl

theorem mapFind_mapInsert_ne {K V : Type} [DecidableEq K] (k k1 : K) (v : V)
    (m : List (K × V)) (h : k ≠ k1) : mapFind k (mapInsert k1 v m) = mapFind k m := by
  unfold mapInsert
  cases mapFind k1 m with
  | some w => rfl
  | none =>
    simp only
    rw [mapFind_append_single]
    cases mapFind k m with
    | none => simp [h]
    | some x => rfl

/-- The pairing holds of a driver with empty tables. -/
theorem parentsAreValid_emptyTables : ParentsAreValid emptyTables := by
  intro f h
  exact absurd rfl h

/-- The three insertions of lines 33-35 keep the pairing. -/
theorem parentsAreValid_recordFunctionSymbol {O : Type} (d : Driver O) (s : Nat)
    (parent : Option SgSymbolPtr) (hinv : ParentsAreValid d) :
    ParentsAreValid (recordFunctionSymbol d s parent) := by
  intro f hf
  simp only [recordFunctionSymbol, mem_ptrSetInsert]
  by_cases hfs : f = s
  · exact Or.inl (by rw [hfs])
  · have hne : SgSymbolPtr.functionSymbol f ≠ SgSymbolPtr.functionSymbol s := by
      intro h
      exact hfs (SgSymbolPtr.functionSymbol.inj h)
    simp only [recordFunctionSymbol] at hf
    rw [mapFind_mapInsert_ne _ _ _ _ hne] at hf
    exact Or.inr (hinv f hf)

/-- A namespace resolver that only adds namespace symbols keeps the pairing. -/
theorem parentsAreValid_resolveNamespace {O : Type}
    (resolveNamespace : Nat → Driver O → Option (Bool × Driver O))
    (hns : OnlyAddsNamespaceSymbols resolveNamespace) (n : Nat) (d : Driver O) (b : Bool)
    (d1 : Driver O) (hcall : resolveNamespace n d = some (b, d1)) (hinv : ParentsAreValid d) :
    ParentsAreValid d1 := by
  obtain ⟨hval, hpar, _⟩ := hns n d b d1 hcall
  intro f hf
  rw [hpar f] at hf
  exact (hval f).mpr (hinv f hf)

/-- C10. Assume the namespace-symbol resolver only ever adds namespace symbols, and take
any driver state in which `p_parent_map` has been written only together with
`p_valid_symbols`, as the code does (a function symbol with a parent entry is valid).
A call of `resolveValidParent<SgFunctionSymbol>(s)` on a symbol that is already valid
returns true and changes nothing; a call on a symbol that is not valid and whose scope
is not a namespace definition returns true. Whenever a call returns: it returns true if
and only if `s` is in `p_valid_symbols` afterwards; if it newly validates `s`, then `s`
is in `p_function_symbols` and `p_parent_map` records a parent for `s`, which is null
when the scope of `s` is not a namespace definition and otherwise a namespace symbol
that is in `p_valid_symbols`; if it returns false, `s` is not in `p_valid_symbols`, and
its entry in `p_parent_map` and its membership in `p_function_symbols` are as before;
and the driver state afterwards is again one in which a function symbol with a parent
entry is valid. -/
theorem resolveValidParentFunction_spec {O : Type} (ast : SageAst)
    (resolveNamespace : Nat → Driver O → Option (Bool × Driver O))
    (hns : OnlyAddsNamespaceSymbols resolveNamespace) (d : Driver O)
    (hinv : ParentsAreValid d) (s : Nat) :
    (SgSymbolPtr.functionSymbol s ∈ d.p_valid_symbols →
      resolveValidParentFunction ast resolveNamespace d s = some (true, d)) ∧
    (SgSymbolPtr.functionSymbol s ∉ d.p_valid_symbols →
      ast.isSgNamespaceDefinitionStatement (ast.symbol_get_scope s) = none →
      resolveValidParentFunction ast resolveNamespace d s
        = some (true, recordFunctionSymbol d s none)) ∧
    (∀ b d1, resolveValidParentFunction ast resolveNamespace d s = some (b, d1) →
      (b = true ↔ SgSymbolPtr.functionSymbol s ∈ d1.p_valid_symbols) ∧
      (b = true → SgSymbolPtr.functionSymbol s ∉ d.p_valid_symbols →
        s ∈ d1.p_function_symbols ∧
        (ast.isSgNamespaceDefinitionStatement (ast.symbol_get_scope s) = none →
          mapFind (SgSymbolPtr.functionSymbol s) d1.p_parent_map = some none) ∧
        (ast.isSgNamespaceDefinitionStatement (ast.symbol_get_scope s) ≠ none →
          ∃ n, mapFind (SgSymbolPtr.functionSymbol s) d1.p_parent_map
                = some (some (SgSymbolPtr.namespaceSymbol n)) ∧
            SgSymbolPtr.namespaceSymbol n ∈ d1.p_valid_symbols)) ∧
      (b = false →
        SgSymbolPtr.functionSymbol s ∉ d1.p_valid_symbols ∧
        mapFind (SgSymbolPtr.functionSymbol s) d1.p_parent_map
          = mapFind (SgSymbolPtr.functionSymbol s) d.p_parent_map ∧
        (s ∈ d1.p_function_symbols ↔ s ∈ d.p_function_symbols)) ∧
      ParentsAreValid d1) := by
  refine ⟨?_, ?_, ?_⟩
  · intro hv
    simp [resolveValidParentFunction, hv]
  · intro hv hsc
    simp [resolveValidParentFunction, hv, hsc]
  · intro b d1 hres
    by_cases hv : SgSymbolPtr.functionSymbol s ∈ d.p_valid_symbols
    · simp only [resolveValidParentFunction, hv, if_true, Option.some.injEq,
        Prod.mk.injEq] at hres
      obtain ⟨rfl, rfl⟩ := hres
      exact ⟨by simp [hv], fun _ h => absurd hv h, fun h => Bool.noConfusion h, hinv⟩
    · have hfree : mapFind (SgSymbolPtr.functionSymbol s) d.p_parent_map = none := by
        by_contra hcon
        exact hv (hinv s hcon)
      rcases resolveValidParentFunction_cases ast resolveNamespace d s b d1 hv hres with
        ⟨hsc, rfl, rfl⟩ | ⟨parent, b0, d0, hsc, hcall, ⟨rfl, rfl, rfl⟩ | ⟨rfl, rfl, hpv, rfl⟩⟩
      · refine ⟨by simp [recordFunctionSymbol, mem_ptrSetInsert], ?_,
          fun h => Bool.noConfusion h, parentsAreValid_recordFunctionSymbol d s none hinv⟩
        intro _ _
        exact ⟨by simp [recordFunctionSymbol, mem_ptrSetInsert],
          fun _ => mapFind_mapInsert_self _ _ _ hfree, fun h => absurd hsc h⟩
      · obtain ⟨hval, hpar, hfs⟩ := hns parent d false d1 hcall
        refine ⟨?_, fun h => Bool.noConfusion h, ?_,
          parentsAreValid_resolveNamespace resolveNamespace hns parent d false d1 hcall hinv⟩
        · constructor
          · intro h
            exact Bool.noConfusion h
          · intro h
            exact absurd ((hval s).mp h) hv
        · intro _
          exact ⟨fun h => hv ((hval s).mp h), hpar s, by rw [hfs]⟩
      · obtain ⟨hval, hpar, hfs⟩ := hns parent d true d0 hcall
        have hinv0 : ParentsAreValid d0 :=
          parentsAreValid_resolveNamespace resolveNamespace hns parent d true d0 hcall hinv
        refine ⟨by simp [recordFunctionSymbol, mem_ptrSetInsert], ?_,
          fun h => Bool.noConfusion h, parentsAreValid_recordFunctionSymbol d0 s _ hinv0⟩
        intro _ _
        have hfree0 : mapFind (SgSymbolPtr.functionSymbol s) d0.p_parent_map = none := by
          rw [hpar s, hfree]
        refine ⟨by simp [recordFunctionSymbol, mem_ptrSetInsert],
          fun h => absurd h hsc, fun _ => ⟨parent, ?_, ?_⟩⟩
        · exact mapFind_mapInsert_self _ _ _ hfree0
        · simp [recordFunctionSymbol, mem_ptrSetInsert, hpv]

/-- C10, witness: on empty tables, function symbol 2 of namespace `N` is validated with
the namespace symbol 7 as its parent. -/
theorem resolveValidParentFunction_spec_witness :
    OnlyAddsNamespaceSymbols sampleResolveNamespace ∧
    ParentsAreValid emptyTables ∧
    resolveValidParentFunction sampleAst sampleResolveNamespace emptyTables 2
      = some (true,
          { emptyTables with
            p_valid_symbols := [SgSymbolPtr.namespaceSymbol 7, SgSymbolPtr.functionSymbol 2]
            p_parent_map := [(SgSymbolPtr.namespaceSymbol 7, none),
              (SgSymbolPtr.functionSymbol 2, some (SgSymbolPtr.namespaceSymbol 7))]
            p_function_symbols := [2] }) ∧
    (true = true ↔ SgSymbolPtr.functionSymbol 2 ∈
      ({ emptyTables with
          p_valid_symbols := [SgSymbolPtr.namespaceSymbol 7, SgSymbolPtr.functionSymbol 2]
          p_parent_map := [(SgSymbolPtr.namespaceSymbol 7, none),
            (SgSymbolPtr.functionSymbol 2, some (SgSymbolPtr.namespaceSymbol 7))]
          p_function_symbols := [2] } : Driver Unit).p_valid_symbols) :=
  ⟨sampleResolveNamespace_onlyAdds, parentsAreValid_emptyTables, rfl,
    ((resolveValidParentFunction_spec sampleAst sampleResolveNamespace
      sampleResolveNamespace_onlyAdds emptyTables parentsAreValid_emptyTables 2).2.2
        true _ rfl).1⟩

end MultiFileBuilder
